import Mathlib

/-!
Verification development for the tuikit terminal-UI toolkit.

The definitions below are shallow embeddings of the Rust sources:
`src/attr.rs`, `src/color.rs`, `src/cell.rs`, `src/screen.rs`,
`src/canvas.rs`, `src/output.rs`, `src/key.rs`, `src/input.rs` and
`src/widget/split.rs`.  Machine integers (`usize`, `u8`, `u16`) are
modelled as `Nat`; Rust `Vec` as `List`; fallible operations return
`Except TuikitError`.  Mutating methods take the receiver and return the
updated value together with the result.
-/

namespace Tuikit

/-! ## Colors, effects, attributes (src/color.rs, src/attr.rs) -/

/-- `Color` from src/color.rs. -/
inductive Color where
  | Default : Color
  | AnsiValue (v : Nat) : Color
  | Rgb (r g b : Nat) : Color
deriving DecidableEq

/-- `Effect` bit flags (u8) from src/attr.rs, modelled by their bit value. -/
abbrev Effect := Nat

/-- `Effect::empty()`. -/
def Effect.emptyE : Effect := 0

/-- `Attr` from src/attr.rs. -/
structure Attr where
  fg : Color
  bg : Color
  effect : Effect
deriving DecidableEq

/-- `Attr::default()`: default colors and empty effect. -/
def Attr.default : Attr := ⟨Color.Default, Color.Default, Effect.emptyE⟩

/-! ## Cells (src/cell.rs) -/

/-- `EMPTY_CHAR` from src/cell.rs: the null character. -/
def EMPTY_CHAR : Char := Char.ofNat 0

/-- `Cell` from src/cell.rs. -/
structure Cell where
  ch : Char
  attr : Attr
deriving DecidableEq

/-- `Cell::default()`: a space with default attribute. -/
def Cell.default : Cell := ⟨' ', Attr.default⟩

/-- `Cell::empty()`: `Cell::default().ch(EMPTY_CHAR)`. -/
def Cell.empty : Cell := ⟨EMPTY_CHAR, Attr.default⟩

/-- `Cell::is_empty`: the character is `EMPTY_CHAR` and the attribute is default. -/
def Cell.is_empty (c : Cell) : Bool := c.ch == EMPTY_CHAR && c.attr == Attr.default

/-! ## Unicode display width

Modelled from the spec: the display width of a character as reported by the
external `unicode_width` crate (`UnicodeWidthChar::width`), which is a
dependency and not part of this repository's sources.  Control characters
have no width (`none`); zero-width characters (combining marks, zero-width
space, variation selectors) have width `0`; wide (CJK/fullwidth/emoji)
ranges have width `2`; all remaining characters have width `1`. -/
def charWidth (c : Char) : Option Nat :=
  let n := c.toNat
  if n < 0x20 ∨ (0x7F ≤ n ∧ n ≤ 0x9F) then none
  else if (0x300 ≤ n ∧ n ≤ 0x36F) ∨ n = 0x200B ∨ (0xFE00 ≤ n ∧ n ≤ 0xFE0F)
      ∨ (0x20D0 ≤ n ∧ n ≤ 0x20FF) then some 0
  else if (0x1100 ≤ n ∧ n ≤ 0x115F) ∨ (0x2E80 ≤ n ∧ n ≤ 0xA4CF)
      ∨ (0xAC00 ≤ n ∧ n ≤ 0xD7A3) ∨ (0xF900 ≤ n ∧ n ≤ 0xFAFF)
      ∨ (0xFE30 ≤ n ∧ n ≤ 0xFE4F) ∨ (0xFF00 ≤ n ∧ n ≤ 0xFF60)
      ∨ (0xFFE0 ≤ n ∧ n ≤ 0xFFE6) ∨ (0x1F300 ≤ n ∧ n ≤ 0x1F64F)
      ∨ (0x1F900 ≤ n ∧ n ≤ 0x1F9FF) ∨ (0x20000 ≤ n ∧ n ≤ 0x2FFFD)
      ∨ (0x30000 ≤ n ∧ n ≤ 0x3FFFD) then some 2
  else some 1

/-! ## Errors and results (src/error.rs) -/

/-- The error constructors of `TuikitError` that the embedded code can
produce.  `Panic` models a Rust `unwrap()` failure. -/
inductive TuikitError where
  | IndexOutOfBound (row col : Nat) : TuikitError
  | UnknownSequence (s : String) : TuikitError
  | Timeout : TuikitError
  | Panic : TuikitError
deriving DecidableEq

/-- `Result<T>` from src/error.rs. -/
abbrev TResult (α : Type) := Except TuikitError α

instance {ε α : Type} [DecidableEq ε] [DecidableEq α] : DecidableEq (Except ε α)
  | Except.ok a, Except.ok b =>
      if h : a = b then isTrue (by rw [h])
      else isFalse (by intro hh; cases hh; exact h rfl)
  | Except.ok _, Except.error _ => isFalse (by intro h; cases h)
  | Except.error _, Except.ok _ => isFalse (by intro h; cases h)
  | Except.error e, Except.error f =>
      if h : e = f then isTrue (by rw [h])
      else isFalse (by intro hh; cases hh; exact h rfl)


/-! ## Output commands (src/output.rs) -/

/-- `Command` from src/output.rs. -/
inductive Command where
  | PutChar (c : Char) : Command
  | Write (s : String) : Command
  | SetTitle (s : String) : Command
  | ClearTitle : Command
  | Flush : Command
  | EraseScreen : Command
  | AlternateScreen (b : Bool) : Command
  | MouseSupport (b : Bool) : Command
  | EraseEndOfLine : Command
  | EraseDown : Command
  | ResetAttributes : Command
  | Fg (c : Color) : Command
  | Bg (c : Color) : Command
  | Effect (e : Effect) : Command
  | SetAttribute (a : Attr) : Command
  | AutoWrap (b : Bool) : Command
  | CursorGoto (row col : Nat) : Command
  | CursorUp (n : Nat) : Command
  | CursorDown (n : Nat) : Command
  | CursorLeft (n : Nat) : Command
  | CursorRight (n : Nat) : Command
  | CursorShow (b : Bool) : Command
deriving DecidableEq

/-! ## Screen (src/screen.rs) -/

/-- `Cursor` from src/screen.rs. -/
structure Cursor where
  row : Nat
  col : Nat
  visible : Bool
deriving DecidableEq

/-- `Cursor::default()`: origin, invisible. -/
def Cursor.default : Cursor := ⟨0, 0, false⟩

/-- `Screen` from src/screen.rs. -/
structure Screen where
  width : Nat
  height : Nat
  cursor : Cursor
  cells : List Cell
  painted_cells : List Cell
  painted_cursor : Cursor
  clear_on_start : Bool
deriving DecidableEq

/-- `Screen::new(width, height)`. -/
def Screen.new (width height : Nat) : Screen :=
  { width := width
    height := height
    cells := List.replicate (width * height) Cell.default
    cursor := Cursor.default
    painted_cells := List.replicate (width * height) Cell.default
    painted_cursor := Cursor.default
    clear_on_start := false }

/-- `Screen::clear_on_start(&mut self, bool)`. -/
def Screen.setClearOnStart (s : Screen) (b : Bool) : Screen :=
  { s with clear_on_start := b }

/-- `Screen::index(row, col)`. -/
def Screen.index (s : Screen) (row col : Nat) : TResult Nat :=
  if row ≥ s.height ∨ col ≥ s.width then
    Except.error (TuikitError.IndexOutOfBound row col)
  else
    Except.ok (row * s.width + col)

/-- `Screen::empty_canvas(width, height)`: a grid of `Cell::empty()`. -/
def Screen.empty_canvas (_s : Screen) (width height : Nat) : List Cell :=
  List.replicate (width * height) Cell.empty

/-- One `copy_from_slice` of `n` cells from `src[srcStart..]` into
`dst[dstStart..]`, as performed per row by `Screen::copy_cells`. -/
def copySlice (src : List Cell) : Nat → Nat → Nat → List Cell → List Cell
  | _, _, 0, dst => dst
  | srcStart, dstStart, n + 1, dst =>
      copySlice src (srcStart + 1) (dstStart + 1) n
        (dst.set dstStart (src.getD srcStart Cell.empty))

/-- The row loop of `Screen::copy_cells`: for `n` rows starting at `row`,
copy `minWidth` cells from the old grid (width `oldWidth`) into the new
grid (width `newWidth`). -/
def copyRows (src : List Cell) (oldWidth newWidth minWidth : Nat) :
    Nat → Nat → List Cell → List Cell
  | _, 0, dst => dst
  | row, n + 1, dst =>
      copyRows src oldWidth newWidth minWidth (row + 1) n
        (copySlice src (row * oldWidth) (row * newWidth) minWidth dst)

/-- `Screen::copy_cells(original, width, height)`. -/
def Screen.copy_cells (s : Screen) (original : List Cell) (width height : Nat) :
    List Cell :=
  let min_height := min height s.height
  let min_width := min width s.width
  copyRows original s.width width min_width 0 min_height (s.empty_canvas width height)

/-- `Screen::resize(width, height)`. -/
def Screen.resize (s : Screen) (width height : Nat) : Screen :=
  { s with
    cells := s.copy_cells s.cells width height
    painted_cells := s.empty_canvas width height
    width := width
    height := height
    cursor := { s.cursor with
      row := min s.cursor.row height
      col := min s.cursor.col width } }

/-- `Canvas::put_cell` for `Screen` (src/screen.rs). -/
def Screen.put_cell (s : Screen) (row col : Nat) (cell : Cell) :
    Screen × TResult Nat :=
  let ch_width := (charWidth cell.ch).getD 2
  if ch_width > 1 then
    match s.index row (col + 1) with
    | Except.ok i =>
        let cs := s.cells.set (i - 1) cell
        let cs := cs.set i { cs.getD i Cell.empty with ch := ' ' }
        ({ s with cells := cs }, Except.ok ch_width)
    | Except.error _ => (s, Except.ok ch_width)
  else
    match s.index row col with
    | Except.ok i => ({ s with cells := s.cells.set i cell }, Except.ok ch_width)
    | Except.error _ => (s, Except.ok ch_width)

/-- `Canvas::set_cursor` for `Screen` (src/screen.rs). -/
def Screen.set_cursor (s : Screen) (row col : Nat) : Screen × TResult Unit :=
  ({ s with cursor :=
      { row := min row (max s.height 1 - 1)
        col := min col (max s.width 1 - 1)
        visible := true } },
   Except.ok ())

/-- `Canvas::show_cursor` for `Screen` (src/screen.rs). -/
def Screen.show_cursor (s : Screen) (b : Bool) : Screen × TResult Unit :=
  ({ s with cursor := { s.cursor with visible := b } }, Except.ok ())

/-- `Canvas::clear` for `Screen` (src/screen.rs): every cell becomes
`Cell::empty()`. -/
def Screen.clearAll (s : Screen) : Screen × TResult Unit :=
  ({ s with cells := s.cells.map (fun _ => Cell.empty) }, Except.ok ())

/-- Loop body of the default `Canvas::print_with_attr` (src/canvas.rs),
threading the accumulated printed width through `put_cell`. -/
def printGo (row col : Nat) (attr : Attr) :
    List Char → Nat → Screen → Screen × TResult Nat
  | [], width, s => (s, Except.ok width)
  | ch :: rest, width, s =>
      match Screen.put_cell s row (col + width) ⟨ch, attr⟩ with
      | (s1, Except.ok w) => printGo row col attr rest (width + w) s1
      | (s1, Except.error e) => (s1, Except.error e)

/-- `Canvas::print_with_attr` for `Screen` (default implementation in
src/canvas.rs over `Screen::put_cell`). -/
def Screen.print_with_attr (s : Screen) (row col : Nat) (content : List Char)
    (attr : Attr) : Screen × TResult Nat :=
  printGo row col attr content 0 s

/-! ## `Screen::present` (src/screen.rs lines 96-200) -/

/-- The mutable locals of `Screen::present`. -/
structure PresentState where
  commands : List Command
  last_attr : Attr
  last_cursor : Cursor
  painted : List Cell
deriving DecidableEq

/-- The right-to-left scan of one row in `Screen::present` that computes
`empty_col_index` and copies trailing empty cells into `painted_cells`.
The fuel argument is the column count still to inspect (starting at the
screen width). -/
def scanEmptyGo (cells : List Cell) (width row : Nat) :
    Nat → List Cell → List Cell × Nat
  | 0, painted => (painted, 0)
  | col + 1, painted =>
      let i := row * width + col
      let cell := cells.getD i Cell.empty
      if cell.is_empty then scanEmptyGo cells width row col (painted.set i cell)
      else (painted, col + 1)

/-- The left-to-right painting loop of one row in `Screen::present`
(columns `col` to `col + n`), carrying `last_ch_is_wide`. -/
def paintRowGo (cells : List Cell) (width row : Nat) :
    Nat → Nat → Bool → PresentState → PresentState
  | _, 0, _, st => st
  | col, n + 1, lastWide, st =>
      let i := row * width + col
      if lastWide then
        paintRowGo cells width row (col + 1) n false
          { st with painted := st.painted.set i (cells.getD i Cell.empty) }
      else
        let cell_to_paint := cells.getD i Cell.empty
        let cell_painted := st.painted.getD i Cell.empty
        if cell_to_paint = cell_painted then
          paintRowGo cells width row (col + 1) n false st
        else
          let cmds1 :=
            if st.last_cursor.row ≠ row ∨ st.last_cursor.col ≠ col then
              [Command.CursorGoto row col]
            else []
          let attrStep :=
            if cell_to_paint.attr ≠ st.last_attr then
              ([Command.ResetAttributes, Command.SetAttribute cell_to_paint.attr],
               cell_to_paint.attr)
            else ([], st.last_attr)
          let putc :=
            if cell_to_paint.ch = '\n' ∨ cell_to_paint.ch = '\r'
                ∨ cell_to_paint.ch = '\t' ∨ cell_to_paint.ch = EMPTY_CHAR then
              Command.PutChar ' '
            else Command.PutChar cell_to_paint.ch
          let display_width := (charWidth cell_to_paint.ch).getD 2
          paintRowGo cells width row (col + 1) n (display_width == 2)
            { commands := st.commands ++ cmds1 ++ attrStep.1 ++ [putc]
              last_attr := attrStep.2
              last_cursor := { st.last_cursor with row := row, col := col + display_width }
              painted := st.painted.set i cell_to_paint }

/-- One iteration of the row loop in `Screen::present`: the backward scan,
the painting loop, and the end-of-row bookkeeping block. -/
def presentRow (cells : List Cell) (width : Nat) (clear_on_start : Bool)
    (row : Nat) (st : PresentState) : PresentState :=
  let scanned := scanEmptyGo cells width row width st.painted
  let empty_col_index := scanned.2
  let st1 := paintRowGo cells width row 0 empty_col_index false
    { st with painted := scanned.1 }
  if empty_col_index ≠ width then
    { st1 with
      commands := st1.commands
        ++ [Command.CursorGoto row empty_col_index, Command.ResetAttributes]
        ++ (if clear_on_start then [Command.EraseEndOfLine] else [])
      last_attr := Attr.default }
  else st1

/-- The row loop of `Screen::present` over `n` rows starting at `row`. -/
def presentRows (cells : List Cell) (width : Nat) (clear_on_start : Bool) :
    Nat → Nat → PresentState → PresentState
  | _, 0, st => st
  | row, n + 1, st =>
      presentRows cells width clear_on_start (row + 1) n
        (presentRow cells width clear_on_start row st)

/-- `Screen::present`: returns the updated screen and the command list. -/
def Screen.present (s : Screen) : Screen × List Command :=
  let st0 : PresentState :=
    { commands := [Command.CursorShow false, Command.CursorGoto 0 0,
        Command.ResetAttributes]
      last_attr := Attr.default
      last_cursor := Cursor.default
      painted := s.painted_cells }
  let st := presentRows s.cells s.width s.clear_on_start 0 s.height st0
  let commands := st.commands
    ++ [Command.CursorGoto s.cursor.row s.cursor.col]
    ++ (if s.cursor.visible then [Command.CursorShow true] else [])
  ({ s with painted_cells := st.painted, painted_cursor := s.cursor }, commands)

/-! ## BoundedCanvas (src/canvas.rs) over a `Screen` as the inner canvas -/

/-- `BoundedCanvas` from src/canvas.rs, instantiated with `Screen` as the
underlying canvas. -/
structure BoundedCanvas where
  top : Nat
  left : Nat
  width : Nat
  height : Nat
  canvas : Screen
deriving DecidableEq

/-- `Canvas::put_cell` for `BoundedCanvas` (src/canvas.rs lines 111-118). -/
def BoundedCanvas.put_cell (b : BoundedCanvas) (row col : Nat) (cell : Cell) :
    BoundedCanvas × TResult Nat :=
  if row ≥ b.height ∨ col ≥ b.width then
    (b, Except.ok ((charWidth cell.ch).getD 2))
  else
    let inner := b.canvas.put_cell (row + b.top) (col + b.left) cell
    ({ b with canvas := inner.1 }, inner.2)

/-! ## List helper lemmas -/

/-- Writing back the value a list already holds at an index leaves the
list unchanged. -/
theorem set_getD_self {α : Type} : ∀ (l : List α) (i : Nat) (d : α),
    l.set i (l.getD i d) = l
  | [], _, _ => rfl
  | _ :: _, 0, _ => by simp [List.getD]
  | a :: l, i + 1, d => by
      simpa [List.getD] using congrArg (a :: ·) (set_getD_self l i d)

/-- Reading an in-range index just written. -/
theorem getD_set_eq {α : Type} (l : List α) (i : Nat) (x d : α)
    (h : i < l.length) : (l.set i x).getD i d = x := by
  simp [List.getD_eq_getElem?_getD, List.getElem?_set_self h]

/-- Reading an index other than the one written. -/
theorem getD_set_ne {α : Type} (l : List α) (i j : Nat) (x d : α)
    (h : i ≠ j) : (l.set i x).getD j d = l.getD j d := by
  simp [List.getD_eq_getElem?_getD, List.getElem?_set_ne h]

/-- `Screen::index` fails on out-of-range positions. -/
theorem Screen.index_oob (s : Screen) (row col : Nat)
    (h : s.height ≤ row ∨ s.width ≤ col) :
    s.index row col = Except.error (TuikitError.IndexOutOfBound row col) := by
  unfold Screen.index
  rw [if_pos h]

/-- `Screen::index` succeeds on in-range positions. -/
theorem Screen.index_ok (s : Screen) (row col : Nat)
    (hr : row < s.height) (hc : col < s.width) :
    s.index row col = Except.ok (row * s.width + col) := by
  unfold Screen.index
  rw [if_neg (by omega)]

/-- The display width of a character is reported as 0, 1 or 2. -/
theorem charWidth_getD_cases (c : Char) :
    (charWidth c).getD 2 = 0 ∨ (charWidth c).getD 2 = 1 ∨ (charWidth c).getD 2 = 2 := by
  simp only [charWidth]
  split_ifs <;> simp

/-! ## Claim theorems -/

/-- C10: `Screen::set_cursor(row, col)` always returns `Ok`, sets the
cursor to `(min(row, max(h,1)-1), min(col, max(w,1)-1))` and marks it
visible; on a screen of width 0 or height 0 this puts the cursor at
`(0,0)` with no error. -/
theorem set_cursor_clamps (s : Screen) (row col : Nat) :
    s.set_cursor row col =
      ({ s with cursor :=
          ⟨min row (max s.height 1 - 1), min col (max s.width 1 - 1), true⟩ },
       Except.ok ()) ∧
    ((Screen.new 0 0).set_cursor row col).1.cursor = ⟨0, 0, true⟩ := by
  constructor
  · rfl
  · simp [Screen.set_cursor, Screen.new]

/-- C2 counterexample: on a fresh 5×1 screen holding "Hello", the first
`present()` does not produce the claimed ten-command sequence (the claimed
second `CursorGoto{0,0}` before `PutChar('H')` is not emitted, because the
tracked last cursor already starts at the origin). -/
theorem present_hello_cex :
    (((Screen.new 5 1).print_with_attr 0 0 "Hello".toList Attr.default).1.present).2 ≠
      [Command.CursorShow false, Command.CursorGoto 0 0, Command.ResetAttributes,
       Command.CursorGoto 0 0, Command.PutChar 'H', Command.PutChar 'e',
       Command.PutChar 'l', Command.PutChar 'l', Command.PutChar 'o',
       Command.CursorGoto 0 0] := by
  decide

/-- C2 amended: on a fresh 5×1 screen holding "Hello", the first
`present()` returns exactly `CursorShow(false); CursorGoto{0,0};
ResetAttributes; PutChar('H'..'o'); CursorGoto{0,0}`, with no second
`CursorGoto{0,0}` before the characters and no trailing
`CursorShow(true)` since the cursor is initially invisible. -/
theorem present_hello_commands :
    (((Screen.new 5 1).print_with_attr 0 0 "Hello".toList Attr.default).1.present).2 =
      [Command.CursorShow false, Command.CursorGoto 0 0, Command.ResetAttributes,
       Command.PutChar 'H', Command.PutChar 'e', Command.PutChar 'l',
       Command.PutChar 'l', Command.PutChar 'o', Command.CursorGoto 0 0] := by
  decide

/-- C5 counterexample: after placing the cursor at (2,2) on a 3×3 screen,
`resize(2,2)` leaves `cursor.row = 2`, which is not `< 2` although the new
height 2 is ≥ 1: `resize` clamps with `min(cursor.row, height)`, not
`height - 1`. -/
theorem resize_cursor_cex :
    ((((Screen.new 3 3).set_cursor 2 2).1).resize 2 2).cursor.row = 2 ∧
    ¬ ((((Screen.new 3 3).set_cursor 2 2).1).resize 2 2).cursor.row < 2 := by
  decide

/-- C4 counterexample: an out-of-bounds `put_cell` with the zero-width
combining character U+0301 reports width 0, not a width in {1,2}: the
reported width is the character's display width with only `None`
defaulting to 2. -/
theorem put_cell_zero_width_cex :
    ((Screen.new 2 2).put_cell 5 0 ⟨Char.ofNat 0x301, Attr.default⟩).1 = Screen.new 2 2 ∧
    ((Screen.new 2 2).put_cell 5 0 ⟨Char.ofNat 0x301, Attr.default⟩).2 = Except.ok 0 ∧
    ((Screen.new 2 2).put_cell 5 0 ⟨Char.ofNat 0x301, Attr.default⟩).2 ≠ Except.ok 1 ∧
    ((Screen.new 2 2).put_cell 5 0 ⟨Char.ofNat 0x301, Attr.default⟩).2 ≠ Except.ok 2 := by
  refine ⟨by decide, by decide, by decide, by decide⟩

/-- C4 amended: on both `Screen` and `BoundedCanvas`, `put_cell` at an
out-of-range position returns `Ok`, changes nothing, and reports the
character's display width (unknown width defaults to 2), which always
lies in {0, 1, 2}. -/
theorem put_cell_oob (s : Screen) (b : BoundedCanvas) (row col : Nat) (cell : Cell) :
    (s.height ≤ row ∨ s.width ≤ col →
      s.put_cell row col cell = (s, Except.ok ((charWidth cell.ch).getD 2))) ∧
    (b.height ≤ row ∨ b.width ≤ col →
      b.put_cell row col cell = (b, Except.ok ((charWidth cell.ch).getD 2))) ∧
    ((charWidth cell.ch).getD 2 = 0 ∨ (charWidth cell.ch).getD 2 = 1 ∨
      (charWidth cell.ch).getD 2 = 2) := by
  refine ⟨?_, ?_, charWidth_getD_cases cell.ch⟩
  · intro h
    unfold Screen.put_cell
    rw [s.index_oob row (col + 1) (by omega), s.index_oob row col (by omega)]
    split <;> simp_all
  · intro h
    unfold BoundedCanvas.put_cell
    rw [if_pos (by omega)]

/-- A wide (width-2) `put_cell` at an in-range position with an in-range
spacer column: the anchor cell is written at `(row, col)` and the spacer at
`(row, col+1)` keeps its attribute but gets the character `' '` (helper). -/
theorem put_cell_wide_eq (s : Screen) (row col : Nat) (cell : Cell)
    (hr : row < s.height) (hc1 : col + 1 < s.width)
    (hw : (charWidth cell.ch).getD 2 = 2) :
    s.put_cell row col cell =
      ({ s with cells :=
          ((s.cells.set (row * s.width + col) cell).set (row * s.width + col + 1)
            ⟨' ', (s.cells.getD (row * s.width + col + 1) Cell.empty).attr⟩) },
       Except.ok 2) := by
  unfold Screen.put_cell
  rw [hw, s.index_ok row (col + 1) hr hc1]
  have e2 : row * s.width + (col + 1) = row * s.width + col + 1 := by omega
  have e3 : (s.cells.set (row * s.width + col) cell).getD
      (row * s.width + col + 1) Cell.empty
      = s.cells.getD (row * s.width + col + 1) Cell.empty :=
    getD_set_ne _ _ _ _ _ (by omega)
  simp only [e2, Nat.add_sub_cancel, e3]
  norm_num

/-- A wide (width-2) `put_cell` whose spacer column falls outside the
screen: nothing is written (helper). -/
theorem put_cell_wide_oob (s : Screen) (row col : Nat) (cell : Cell)
    (hc1 : s.width ≤ col + 1)
    (hw : (charWidth cell.ch).getD 2 = 2) :
    s.put_cell row col cell = (s, Except.ok 2) := by
  unfold Screen.put_cell
  rw [hw, s.index_oob row (col + 1) (Or.inr hc1)]
  simp

/-- An in-range position is an in-range flat index (helper). -/
theorem flat_index_lt (width height row col len : Nat)
    (hr : row < height) (hc : col < width) (hlen : len = width * height) :
    row * width + col < len := by
  rw [hlen, Nat.mul_comm width height]
  calc row * width + col < (row + 1) * width := by
        simp [Nat.succ_mul]; omega
  _ ≤ height * width := Nat.mul_le_mul_right _ (by omega)

/-- C3: on a `Screen`, `put_cell` of a display-width-2 character at an
in-range `(row, col)` returns 2; when `col+1` is still in range it writes
the cell at `(row, col)` and a space character at `(row, col+1)`; when
`col+1` is out of range nothing at all is written yet 2 is returned. -/
theorem wide_put_cell_spec (s : Screen) (row col : Nat) (cell : Cell)
    (hr : row < s.height) (hcol : col < s.width)
    (hw : charWidth cell.ch = some 2)
    (hlen : s.cells.length = s.width * s.height) :
    (s.put_cell row col cell).2 = Except.ok 2 ∧
    (col + 1 < s.width →
      (s.put_cell row col cell).1.cells.getD (row * s.width + col) Cell.empty = cell ∧
      ((s.put_cell row col cell).1.cells.getD (row * s.width + col + 1) Cell.empty).ch
        = ' ') ∧
    (s.width ≤ col + 1 → (s.put_cell row col cell).1 = s) := by
  have hw2 : (charWidth cell.ch).getD 2 = 2 := by rw [hw]; rfl
  by_cases hc1 : col + 1 < s.width
  · have heq := put_cell_wide_eq s row col cell hr hc1 hw2
    have ha : row * s.width + col < s.cells.length :=
      flat_index_lt s.width s.height row col _ hr hcol hlen
    have ha1 : row * s.width + col + 1 < s.cells.length := by
      have : row * s.width + (col + 1) < s.cells.length :=
        flat_index_lt s.width s.height row (col + 1) _ hr hc1 hlen
      omega
    refine ⟨by rw [heq], fun _ => ⟨?_, ?_⟩, fun hcon => absurd hcon (by omega)⟩
    · rw [heq]
      rw [getD_set_ne _ _ _ _ _ (by omega),
          getD_set_eq _ _ _ _ ha]
    · rw [heq]
      rw [getD_set_eq _ _ _ _ (by simpa using ha1)]
  · have heq := put_cell_wide_oob s row col cell (by omega) hw2
    exact ⟨by rw [heq], fun hcon => absurd hcon (by omega), fun _ => by rw [heq]⟩

/-- Witness for `wide_put_cell_spec`: a CJK character on a 2×1 screen. -/
theorem wide_put_cell_spec_witness :
    ((Screen.new 2 1).put_cell 0 0 ⟨'中', Attr.default⟩).2 = Except.ok 2 ∧
    ((Screen.new 2 1).put_cell 0 0 ⟨'中', Attr.default⟩).1.cells.getD 0 Cell.empty
      = ⟨'中', Attr.default⟩ ∧
    (((Screen.new 2 1).put_cell 0 0 ⟨'中', Attr.default⟩).1.cells.getD 1 Cell.empty).ch
      = ' ' := by
  have h := wide_put_cell_spec (Screen.new 2 1) 0 0 ⟨'中', Attr.default⟩
    (by decide) (by decide) (by decide) (by decide)
  exact ⟨h.1, by simpa using (h.2.1 (by decide)).1, by simpa using (h.2.1 (by decide)).2⟩

/-- C9: a wide `put_cell` with the spacer in range overwrites only the
spacer's character with `' '`; the spacer's attribute keeps its previous
value (it is neither set to the written attribute nor reset). -/
theorem wide_spacer_attr_preserved (s : Screen) (row col : Nat) (cell : Cell)
    (hr : row < s.height) (hc1 : col + 1 < s.width)
    (hw : charWidth cell.ch = some 2)
    (hlen : s.cells.length = s.width * s.height) :
    ((s.put_cell row col cell).1.cells.getD (row * s.width + col + 1) Cell.empty).attr
      = (s.cells.getD (row * s.width + col + 1) Cell.empty).attr ∧
    ((s.put_cell row col cell).1.cells.getD (row * s.width + col + 1) Cell.empty).ch
      = ' ' := by
  have hw2 : (charWidth cell.ch).getD 2 = 2 := by rw [hw]; rfl
  have heq := put_cell_wide_eq s row col cell hr hc1 hw2
  have ha1 : row * s.width + col + 1 < s.cells.length := by
    have : row * s.width + (col + 1) < s.cells.length :=
      flat_index_lt s.width s.height row (col + 1) _ hr hc1 hlen
    omega
  rw [heq]
  constructor
  · rw [getD_set_eq _ _ _ _ (by simpa using ha1)]
  · rw [getD_set_eq _ _ _ _ (by simpa using ha1)]

/-- Witness for `wide_spacer_attr_preserved`: the spacer cell of a 3×1
screen keeps a previously painted red attribute. -/
theorem wide_spacer_attr_preserved_witness :
    ((((Screen.new 3 1).put_cell 0 1 ⟨'x', ⟨Color.AnsiValue 1, Color.Default, 0⟩⟩).1.put_cell
        0 0 ⟨'中', Attr.default⟩).1.cells.getD 1 Cell.empty).attr
      = ⟨Color.AnsiValue 1, Color.Default, 0⟩ := by
  have h := wide_spacer_attr_preserved
    (((Screen.new 3 1).put_cell 0 1 ⟨'x', ⟨Color.AnsiValue 1, Color.Default, 0⟩⟩).1)
    0 0 ⟨'中', Attr.default⟩ (by decide) (by decide) (by decide) (by decide)
  have h1 := h.1
  simp only [Nat.zero_mul, Nat.zero_add] at h1
  rw [h1]
  decide

/-- Witness for `put_cell_oob` at a concrete out-of-bounds call. -/
theorem put_cell_oob_witness :
    (Screen.new 2 2).put_cell 5 0 Cell.default =
      (Screen.new 2 2, Except.ok ((charWidth Cell.default.ch).getD 2)) :=
  (put_cell_oob (Screen.new 2 2) ⟨0, 0, 2, 2, Screen.new 2 2⟩ 5 0 Cell.default).1
    (by decide)

/-! ## Lemmas about `copySlice`/`copyRows` (for `Screen::resize`) -/

theorem copySlice_length (src : List Cell) :
    ∀ (n a b : Nat) (dst : List Cell),
      (copySlice src a b n dst).length = dst.length
  | 0, _, _, _ => rfl
  | n + 1, a, b, dst => by
      rw [copySlice, copySlice_length src n (a + 1) (b + 1)]
      exact List.length_set ..

theorem copySlice_getD_lt (src : List Cell) :
    ∀ (n a b : Nat) (dst : List Cell) (j : Nat), j < b →
      (copySlice src a b n dst).getD j Cell.empty = dst.getD j Cell.empty
  | 0, _, _, _, _, _ => rfl
  | n + 1, a, b, dst, j, hj => by
      rw [copySlice, copySlice_getD_lt src n (a + 1) (b + 1) _ j (by omega)]
      exact getD_set_ne _ _ _ _ _ (by omega)

theorem copySlice_getD_ge (src : List Cell) :
    ∀ (n a b : Nat) (dst : List Cell) (j : Nat), b + n ≤ j →
      (copySlice src a b n dst).getD j Cell.empty = dst.getD j Cell.empty
  | 0, _, _, _, _, _ => rfl
  | n + 1, a, b, dst, j, hj => by
      rw [copySlice, copySlice_getD_ge src n (a + 1) (b + 1) _ j (by omega)]
      exact getD_set_ne _ _ _ _ _ (by omega)

theorem copySlice_getD_in (src : List Cell) :
    ∀ (n a b : Nat) (dst : List Cell) (k : Nat), k < n → b + k < dst.length →
      (copySlice src a b n dst).getD (b + k) Cell.empty
        = src.getD (a + k) Cell.empty
  | 0, _, _, _, _, hk, _ => absurd hk (by omega)
  | n + 1, a, b, dst, 0, _, hb => by
      rw [copySlice, copySlice_getD_lt src n (a + 1) (b + 1) _ (b + 0) (by omega)]
      simpa using getD_set_eq dst b (src.getD a Cell.empty) Cell.empty hb
  | n + 1, a, b, dst, k + 1, hk, hb => by
      rw [copySlice]
      have h := copySlice_getD_in src n (a + 1) (b + 1)
        (dst.set b (src.getD a Cell.empty)) k (by omega)
        (by rw [List.length_set]; omega)
      have e1 : b + 1 + k = b + (k + 1) := by omega
      have e2 : a + 1 + k = a + (k + 1) := by omega
      rw [e1, e2] at h
      exact h

theorem copyRows_length (src : List Cell) (oldW newW minW : Nat) :
    ∀ (n row : Nat) (dst : List Cell),
      (copyRows src oldW newW minW row n dst).length = dst.length
  | 0, _, _ => rfl
  | n + 1, row, dst => by
      rw [copyRows, copyRows_length src oldW newW minW n (row + 1)]
      exact copySlice_length ..

theorem copyRows_getD_lt (src : List Cell) (oldW newW minW : Nat)
    (hmin : minW ≤ newW) :
    ∀ (n row : Nat) (dst : List Cell) (j : Nat), j < row * newW →
      (copyRows src oldW newW minW row n dst).getD j Cell.empty
        = dst.getD j Cell.empty
  | 0, _, _, _, _ => rfl
  | n + 1, row, dst, j, hj => by
      rw [copyRows,
        copyRows_getD_lt src oldW newW minW hmin n (row + 1) _ j
          (by have e : (row + 1) * newW = row * newW + newW := by ring
              omega)]
      exact copySlice_getD_lt src minW (row * oldW) (row * newW) dst j hj

theorem copyRows_getD_in (src : List Cell) (oldW newW minW : Nat)
    (hmin : minW ≤ newW) :
    ∀ (n row : Nat) (dst : List Cell) (r k : Nat),
      row ≤ r → r < row + n → k < minW → r * newW + k < dst.length →
      (copyRows src oldW newW minW row n dst).getD (r * newW + k) Cell.empty
        = src.getD (r * oldW + k) Cell.empty
  | 0, _, _, _, _, _, hr2, _, _ => absurd hr2 (by omega)
  | n + 1, row, dst, r, k, hr1, hr2, hk, hlt => by
      rw [copyRows]
      by_cases hrow : r = row
      · subst hrow
        rw [copyRows_getD_lt src oldW newW minW hmin n (r + 1) _ _
            (by have e : (r + 1) * newW = r * newW + newW := by ring
                omega)]
        exact copySlice_getD_in src minW (r * oldW) (r * newW) dst k hk hlt
      · exact copyRows_getD_in src oldW newW minW hmin n (row + 1)
          (copySlice src (row * oldW) (row * newW) minW dst) r k
          (by omega) (by omega) hk
          (by rw [copySlice_length]; exact hlt)

/-- C5 amended: `Screen::resize(w', h')` produces cell and painted grids
of length `w'·h'`, copies the top-left `min(w,w') × min(h,h')`
intersection of the current grid, resets the painted grid to empty cells,
and clamps the cursor coordinates to `min(old, h')` and `min(old, w')`
(so the cursor may sit at row `h'` or column `w'`, one past the last
index, when it was beyond the new size). -/
theorem resize_spec (s : Screen) (w h : Nat) :
    (s.resize w h).width = w ∧ (s.resize w h).height = h ∧
    (s.resize w h).cells.length = w * h ∧
    (s.resize w h).painted_cells = List.replicate (w * h) Cell.empty ∧
    (∀ row col, row < min h s.height → col < min w s.width →
      (s.resize w h).cells.getD (row * w + col) Cell.empty
        = s.cells.getD (row * s.width + col) Cell.empty) ∧
    (s.resize w h).cursor.row = min s.cursor.row h ∧
    (s.resize w h).cursor.col = min s.cursor.col w := by
  refine ⟨rfl, rfl, ?_, rfl, ?_, rfl, rfl⟩
  · show (s.copy_cells s.cells w h).length = w * h
    unfold Screen.copy_cells
    rw [copyRows_length]
    simp [Screen.empty_canvas]
  · intro row col h1 h2
    show (s.copy_cells s.cells w h).getD (row * w + col) Cell.empty = _
    unfold Screen.copy_cells
    exact copyRows_getD_in s.cells s.width w (min w s.width) (Nat.min_le_left w s.width)
      (min h s.height) 0 (s.empty_canvas w h) row col (Nat.zero_le row) (by omega) h2
      (by
        have : row * w + col < w * h := by
          exact flat_index_lt w h row col (w * h) (by omega) (by omega) rfl
        simpa [Screen.empty_canvas] using this)

/-- Witness for `resize_spec`: shrinking a 3×2 screen containing 'a' at
(1,1) to 2×2 keeps 'a' at (1,1). -/
theorem resize_spec_witness :
    ((((Screen.new 3 2).put_cell 1 1 ⟨'a', Attr.default⟩).1.resize 2 2).cells.getD 3
        Cell.empty).ch = 'a' := by
  have h := resize_spec ((Screen.new 3 2).put_cell 1 1 ⟨'a', Attr.default⟩).1 2 2
  have hc := h.2.2.2.2.1 1 1 (by decide) (by decide)
  have e : (1 : Nat) * 2 + 1 = 3 := by norm_num
  rw [e] at hc
  rw [hc]
  decide

/-! ## Lemmas about `Screen::present`

Phase A: after one `present`, the painted buffer agrees with the cell
buffer on every in-range index. -/

theorem scanEmptyGo_idx_le (cells : List Cell) (w r : Nat) :
    ∀ (n : Nat) (p : List Cell), (scanEmptyGo cells w r n p).2 ≤ n
  | 0, _ => Nat.le_refl 0
  | n + 1, p => by
      rw [scanEmptyGo]
      cases hb : (cells.getD (r * w + n) Cell.empty).is_empty
      · simp [hb]
      · simp only [hb, if_pos]
        exact Nat.le_succ_of_le (scanEmptyGo_idx_le cells w r n _)

theorem scanEmptyGo_length (cells : List Cell) (w r : Nat) :
    ∀ (n : Nat) (p : List Cell), (scanEmptyGo cells w r n p).1.length = p.length
  | 0, _ => rfl
  | n + 1, p => by
      rw [scanEmptyGo]
      cases hb : (cells.getD (r * w + n) Cell.empty).is_empty
      · simp [hb]
      · simp only [hb, if_pos]
        rw [scanEmptyGo_length cells w r n]
        exact List.length_set ..

theorem scanEmptyGo_getD_lt (cells : List Cell) (w r : Nat) :
    ∀ (n : Nat) (p : List Cell) (j : Nat),
      j < r * w + (scanEmptyGo cells w r n p).2 →
      (scanEmptyGo cells w r n p).1.getD j Cell.empty = p.getD j Cell.empty
  | 0, _, _, _ => rfl
  | n + 1, p, j, hj => by
      rw [scanEmptyGo] at hj ⊢
      cases hb : (cells.getD (r * w + n) Cell.empty).is_empty
      · simp [hb]
      · simp only [hb, if_pos] at hj ⊢
        have hle := scanEmptyGo_idx_le cells w r n
          (p.set (r * w + n) (cells.getD (r * w + n) Cell.empty))
        rw [scanEmptyGo_getD_lt cells w r n _ j hj]
        exact getD_set_ne _ _ _ _ _ (by omega)

theorem scanEmptyGo_getD_ge (cells : List Cell) (w r : Nat) :
    ∀ (n : Nat) (p : List Cell) (j : Nat), r * w + n ≤ j →
      (scanEmptyGo cells w r n p).1.getD j Cell.empty = p.getD j Cell.empty
  | 0, _, _, _ => rfl
  | n + 1, p, j, hj => by
      rw [scanEmptyGo]
      cases hb : (cells.getD (r * w + n) Cell.empty).is_empty
      · simp [hb]
      · simp only [hb, if_pos]
        rw [scanEmptyGo_getD_ge cells w r n _ j (by omega)]
        exact getD_set_ne _ _ _ _ _ (by omega)

theorem scanEmptyGo_getD_in (cells : List Cell) (w r : Nat) :
    ∀ (n : Nat) (p : List Cell) (col : Nat),
      (scanEmptyGo cells w r n p).2 ≤ col → col < n → r * w + col < p.length →
      (scanEmptyGo cells w r n p).1.getD (r * w + col) Cell.empty
        = cells.getD (r * w + col) Cell.empty
  | 0, _, _, hle, hlt, _ => absurd hlt (by omega)
  | n + 1, p, col, hle, hlt, hp => by
      rw [scanEmptyGo] at hle ⊢
      cases hb : (cells.getD (r * w + n) Cell.empty).is_empty
      · simp only [hb, Bool.false_eq_true, if_neg, if_false] at hle ⊢
        omega
      · simp only [hb, if_pos] at hle ⊢
        by_cases hcol : col = n
        · rw [hcol] at hp ⊢
          rw [scanEmptyGo_getD_ge cells w r n _ _ (Nat.le_refl _)]
          exact getD_set_eq _ _ _ _ hp
        · exact scanEmptyGo_getD_in cells w r n _ col hle (by omega)
            (by rw [List.length_set]; exact hp)

theorem paintRowGo_length (cells : List Cell) (w r : Nat) :
    ∀ (n col : Nat) (lw : Bool) (st : PresentState),
      (paintRowGo cells w r col n lw st).painted.length = st.painted.length
  | 0, _, _, _ => rfl
  | n + 1, col, lw, st => by
      rw [paintRowGo]
      cases lw
      · simp only [Bool.false_eq_true, if_neg, if_false]
        by_cases hq : cells.getD (r * w + col) Cell.empty
            = st.painted.getD (r * w + col) Cell.empty
        · rw [if_pos hq, paintRowGo_length cells w r n (col + 1)]
        · rw [if_neg hq, paintRowGo_length cells w r n (col + 1)]
          exact List.length_set ..
      · simp only [if_pos]
        rw [paintRowGo_length cells w r n (col + 1)]
        exact List.length_set ..

theorem paintRowGo_getD_lt (cells : List Cell) (w r : Nat) :
    ∀ (n col : Nat) (lw : Bool) (st : PresentState) (j : Nat), j < r * w + col →
      (paintRowGo cells w r col n lw st).painted.getD j Cell.empty
        = st.painted.getD j Cell.empty
  | 0, _, _, _, _, _ => rfl
  | n + 1, col, lw, st, j, hj => by
      rw [paintRowGo]
      cases lw
      · simp only [Bool.false_eq_true, if_neg, if_false]
        by_cases hq : cells.getD (r * w + col) Cell.empty
            = st.painted.getD (r * w + col) Cell.empty
        · rw [if_pos hq, paintRowGo_getD_lt cells w r n (col + 1) _ _ j (by omega)]
        · rw [if_neg hq, paintRowGo_getD_lt cells w r n (col + 1) _ _ j (by omega)]
          exact getD_set_ne _ _ _ _ _ (by omega)
      · simp only [if_pos]
        rw [paintRowGo_getD_lt cells w r n (col + 1) _ _ j (by omega)]
        exact getD_set_ne _ _ _ _ _ (by omega)

theorem paintRowGo_getD_in (cells : List Cell) (w r : Nat) :
    ∀ (n col : Nat) (lw : Bool) (st : PresentState) (k : Nat), k < n →
      r * w + col + k < st.painted.length →
      (paintRowGo cells w r col n lw st).painted.getD (r * w + col + k) Cell.empty
        = cells.getD (r * w + col + k) Cell.empty
  | 0, _, _, _, _, hk, _ => absurd hk (by omega)
  | n + 1, col, lw, st, k, hk, hlen => by
      rw [paintRowGo]
      have hstep : ∀ (lw' : Bool) (st' : PresentState),
          st'.painted = st.painted.set (r * w + col)
            (cells.getD (r * w + col) Cell.empty) →
          (paintRowGo cells w r (col + 1) n lw' st').painted.getD
              (r * w + col + k) Cell.empty
            = cells.getD (r * w + col + k) Cell.empty := by
        intro lw' st' hst'
        match k, hk with
        | 0, _ =>
            rw [paintRowGo_getD_lt cells w r n (col + 1) _ _ _ (by omega), hst']
            simpa using getD_set_eq st.painted (r * w + col) _ Cell.empty
              (by omega)
        | k + 1, hk =>
            have h := paintRowGo_getD_in cells w r n (col + 1) lw' st' k
              (by omega) (by rw [hst', List.length_set]; omega)
            have e : r * w + (col + 1) + k = r * w + col + (k + 1) := by omega
            rw [e] at h
            exact h
      cases lw
      · simp only [Bool.false_eq_true, if_neg, if_false]
        by_cases hq : cells.getD (r * w + col) Cell.empty
            = st.painted.getD (r * w + col) Cell.empty
        · rw [if_pos hq]
          match k, hk with
          | 0, _ =>
              rw [paintRowGo_getD_lt cells w r n (col + 1) _ _ _ (by omega)]
              simpa using hq.symm
          | k + 1, hk =>
              have h := paintRowGo_getD_in cells w r n (col + 1) false st k
                (by omega) (by omega)
              have e : r * w + (col + 1) + k = r * w + col + (k + 1) := by omega
              rw [e] at h
              exact h
        · rw [if_neg hq]
          apply hstep
          rfl
      · simp only [if_pos]
        apply hstep
        rfl

theorem paintRowGo_getD_ge (cells : List Cell) (w r : Nat) :
    ∀ (n col : Nat) (lw : Bool) (st : PresentState) (j : Nat),
      r * w + col + n ≤ j →
      (paintRowGo cells w r col n lw st).painted.getD j Cell.empty
        = st.painted.getD j Cell.empty
  | 0, _, _, _, _, _ => rfl
  | n + 1, col, lw, st, j, hj => by
      rw [paintRowGo]
      cases lw
      · simp only [Bool.false_eq_true, if_neg, if_false]
        by_cases hq : cells.getD (r * w + col) Cell.empty
            = st.painted.getD (r * w + col) Cell.empty
        · rw [if_pos hq, paintRowGo_getD_ge cells w r n (col + 1) _ _ j (by omega)]
        · rw [if_neg hq, paintRowGo_getD_ge cells w r n (col + 1) _ _ j (by omega)]
          exact getD_set_ne _ _ _ _ _ (by omega)
      · simp only [if_pos]
        rw [paintRowGo_getD_ge cells w r n (col + 1) _ _ j (by omega)]
        exact getD_set_ne _ _ _ _ _ (by omega)

/-- The painted buffer produced by one row iteration of `present` is the
one produced by the backward scan followed by the painting loop. -/
theorem presentRow_painted_eq (cells : List Cell) (w : Nat) (cs : Bool)
    (r : Nat) (st : PresentState) :
    (presentRow cells w cs r st).painted =
      (paintRowGo cells w r 0 (scanEmptyGo cells w r w st.painted).2 false
        { st with painted := (scanEmptyGo cells w r w st.painted).1 }).painted := by
  simp only [presentRow]
  split <;> rfl

/-- The command list produced by one row iteration of `present`. -/
theorem presentRow_commands_eq (cells : List Cell) (w : Nat) (cs : Bool)
    (r : Nat) (st : PresentState) :
    (presentRow cells w cs r st).commands =
      (paintRowGo cells w r 0 (scanEmptyGo cells w r w st.painted).2 false
        { st with painted := (scanEmptyGo cells w r w st.painted).1 }).commands
      ++ (if (scanEmptyGo cells w r w st.painted).2 ≠ w then
            [Command.CursorGoto r (scanEmptyGo cells w r w st.painted).2,
             Command.ResetAttributes]
            ++ (if cs then [Command.EraseEndOfLine] else [])
          else []) := by
  simp only [presentRow]
  split
  · simp [List.append_assoc]
  · simp

theorem presentRow_painted_length (cells : List Cell) (w : Nat) (cs : Bool)
    (r : Nat) (st : PresentState) :
    (presentRow cells w cs r st).painted.length = st.painted.length := by
  rw [presentRow_painted_eq, paintRowGo_length, scanEmptyGo_length]

theorem presentRow_getD_lt (cells : List Cell) (w : Nat) (cs : Bool)
    (r : Nat) (st : PresentState) (j : Nat) (hj : j < r * w) :
    (presentRow cells w cs r st).painted.getD j Cell.empty
      = st.painted.getD j Cell.empty := by
  rw [presentRow_painted_eq]
  rw [paintRowGo_getD_lt cells w r _ 0 _ _ j (by omega)]
  exact scanEmptyGo_getD_lt cells w r w st.painted j
    (by have := scanEmptyGo_idx_le cells w r w st.painted; omega)

theorem presentRow_getD_in (cells : List Cell) (w : Nat) (cs : Bool)
    (r : Nat) (st : PresentState) (c : Nat) (hc : c < w)
    (hlen : r * w + c < st.painted.length) :
    (presentRow cells w cs r st).painted.getD (r * w + c) Cell.empty
      = cells.getD (r * w + c) Cell.empty := by
  rw [presentRow_painted_eq]
  by_cases hidx : c < (scanEmptyGo cells w r w st.painted).2
  · have h := paintRowGo_getD_in cells w r
      (scanEmptyGo cells w r w st.painted).2 0 false
      { st with painted := (scanEmptyGo cells w r w st.painted).1 } c hidx
      (by simpa [scanEmptyGo_length] using hlen)
    simpa using h
  · have h := paintRowGo_getD_ge cells w r
      (scanEmptyGo cells w r w st.painted).2 0 false
      { st with painted := (scanEmptyGo cells w r w st.painted).1 }
      (r * w + c) (by omega)
    rw [h]
    exact scanEmptyGo_getD_in cells w r w st.painted c (by omega) hc hlen

theorem presentRows_painted_length (cells : List Cell) (w : Nat) (cs : Bool) :
    ∀ (n row : Nat) (st : PresentState),
      (presentRows cells w cs row n st).painted.length = st.painted.length
  | 0, _, _ => rfl
  | n + 1, row, st => by
      rw [presentRows, presentRows_painted_length cells w cs n (row + 1)]
      exact presentRow_painted_length ..

theorem presentRows_getD_lt (cells : List Cell) (w : Nat) (cs : Bool) :
    ∀ (n row : Nat) (st : PresentState) (j : Nat), j < row * w →
      (presentRows cells w cs row n st).painted.getD j Cell.empty
        = st.painted.getD j Cell.empty
  | 0, _, _, _, _ => rfl
  | n + 1, row, st, j, hj => by
      rw [presentRows,
        presentRows_getD_lt cells w cs n (row + 1) _ j
          (by have e : (row + 1) * w = row * w + w := by ring
              omega)]
      exact presentRow_getD_lt cells w cs row st j hj

theorem presentRows_getD_in (cells : List Cell) (w : Nat) (cs : Bool) :
    ∀ (n row : Nat) (st : PresentState) (r c : Nat),
      row ≤ r → r < row + n → c < w → r * w + c < st.painted.length →
      (presentRows cells w cs row n st).painted.getD (r * w + c) Cell.empty
        = cells.getD (r * w + c) Cell.empty
  | 0, _, _, _, _, _, hr2, _, _ => absurd hr2 (by omega)
  | n + 1, row, st, r, c, hr1, hr2, hc, hlen => by
      rw [presentRows]
      by_cases hrow : r = row
      · subst hrow
        rw [presentRows_getD_lt cells w cs n (r + 1) _ _
            (by have e : (r + 1) * w = r * w + w := by ring
                omega)]
        exact presentRow_getD_in cells w cs r st c hc hlen
      · exact presentRows_getD_in cells w cs n (row + 1) _ r c (by omega) (by omega)
          hc (by rw [presentRow_painted_length]; exact hlen)

/-- After `Screen::present`, the painted buffer equals the cell buffer
(whenever both have the invariant length `width·height`). -/
theorem present_painted_eq_cells (s : Screen)
    (h1 : s.cells.length = s.width * s.height)
    (h2 : s.painted_cells.length = s.width * s.height) :
    (s.present).1.painted_cells = s.cells := by
  have hres : (s.present).1.painted_cells =
      (presentRows s.cells s.width s.clear_on_start 0 s.height
        { commands := [Command.CursorShow false, Command.CursorGoto 0 0,
            Command.ResetAttributes]
          last_attr := Attr.default
          last_cursor := Cursor.default
          painted := s.painted_cells }).painted := rfl
  rw [hres]
  by_cases hw : s.width = 0
  · have hlen : (presentRows s.cells s.width s.clear_on_start 0 s.height
        { commands := [Command.CursorShow false, Command.CursorGoto 0 0,
            Command.ResetAttributes]
          last_attr := Attr.default
          last_cursor := Cursor.default
          painted := s.painted_cells }).painted.length = 0 := by
      rw [presentRows_painted_length]
      simp [h2, hw]
    have hcl : s.cells.length = 0 := by simp [h1, hw]
    rw [List.length_eq_zero] at hlen hcl
    rw [hlen, hcl]
  · apply List.ext_getElem
    · rw [presentRows_painted_length]
      simp [h1, h2]
    · intro j hj1 hj2
      rw [presentRows_painted_length] at hj1
      simp only [h2] at hj1
      have hwpos : 0 < s.width := Nat.pos_of_ne_zero hw
      have hdecomp : j = (j / s.width) * s.width + j % s.width := by
        rw [Nat.mul_comm]
        exact (Nat.div_add_mod j s.width).symm
      have hmod : j % s.width < s.width := Nat.mod_lt _ hwpos
      have hdivlt : j / s.width < s.height := Nat.div_lt_of_lt_mul hj1
      have hin := presentRows_getD_in s.cells s.width s.clear_on_start
        s.height 0
        { commands := [Command.CursorShow false, Command.CursorGoto 0 0,
            Command.ResetAttributes]
          last_attr := Attr.default
          last_cursor := Cursor.default
          painted := s.painted_cells }
        (j / s.width) (j % s.width) (Nat.zero_le _) (by omega) hmod
        (by simp only [h2]; omega)
      rw [← hdecomp] at hin
      rw [← List.getD_eq_getElem _ Cell.empty, ← List.getD_eq_getElem _ Cell.empty]
      exact hin

/-! Phase B: a `present` whose painted buffer already equals the cell
buffer emits only bookkeeping commands. -/

theorem scanEmptyGo_fst_self (cells : List Cell) (w r : Nat) :
    ∀ (n : Nat), (scanEmptyGo cells w r n cells).1 = cells
  | 0 => rfl
  | n + 1 => by
      rw [scanEmptyGo]
      cases hb : (cells.getD (r * w + n) Cell.empty).is_empty
      · simp [hb]
      · simp only [hb, if_pos]
        rw [set_getD_self]
        exact scanEmptyGo_fst_self cells w r n

theorem paintRowGo_self (cells : List Cell) (w r : Nat) :
    ∀ (n col : Nat) (st : PresentState), st.painted = cells →
      paintRowGo cells w r col n false st = st
  | 0, _, _, _ => rfl
  | n + 1, col, st, h => by
      rw [paintRowGo]
      have hq : cells.getD (r * w + col) Cell.empty
          = st.painted.getD (r * w + col) Cell.empty := by rw [h]
      simp only [Bool.false_eq_true, if_neg, if_false, if_pos hq]
      exact paintRowGo_self cells w r n (col + 1) st h

theorem presentRow_self (cells : List Cell) (w : Nat) (cs : Bool) (r : Nat)
    (st : PresentState) (h : st.painted = cells) :
    (presentRow cells w cs r st).painted = cells ∧
    ∀ c ∈ (presentRow cells w cs r st).commands,
      c ∈ st.commands ∨ (∃ a b, c = Command.CursorGoto a b) ∨
      c = Command.ResetAttributes ∨
      (c = Command.EraseEndOfLine ∧ cs = true) := by
  have hscan : (scanEmptyGo cells w r w st.painted).1 = cells := by
    rw [h]; exact scanEmptyGo_fst_self cells w r w
  have hst1 : paintRowGo cells w r 0 (scanEmptyGo cells w r w st.painted).2 false
      { st with painted := (scanEmptyGo cells w r w st.painted).1 }
      = { st with painted := (scanEmptyGo cells w r w st.painted).1 } :=
    paintRowGo_self cells w r _ 0 _ (by simpa using hscan)
  constructor
  · rw [presentRow_painted_eq, hst1]
    simpa using hscan
  · intro c hc
    rw [presentRow_commands_eq, hst1] at hc
    simp only [List.mem_append] at hc
    rcases hc with hc | hc
    · exact Or.inl hc
    · split at hc
      · simp only [List.mem_append] at hc
        rcases hc with hc | hc
        · simp only [List.mem_cons, List.mem_singleton] at hc
          rcases hc with hc | hc | hc
          · exact Or.inr (Or.inl ⟨r, _, hc⟩)
          · exact Or.inr (Or.inr (Or.inl hc))
          · cases hc
        · split at hc
          · simp only [List.mem_singleton] at hc
            exact Or.inr (Or.inr (Or.inr ⟨hc, by assumption⟩))
          · cases hc
      · cases hc

theorem presentRows_self (cells : List Cell) (w : Nat) (cs : Bool) :
    ∀ (n row : Nat) (st : PresentState), st.painted = cells →
      (presentRows cells w cs row n st).painted = cells ∧
      ∀ c ∈ (presentRows cells w cs row n st).commands,
        c ∈ st.commands ∨ (∃ a b, c = Command.CursorGoto a b) ∨
        c = Command.ResetAttributes ∨
        (c = Command.EraseEndOfLine ∧ cs = true)
  | 0, _, _, h => ⟨h, fun _ hc => Or.inl hc⟩
  | n + 1, row, st, h => by
      rw [presentRows]
      have hrow := presentRow_self cells w cs row st h
      have hrec := presentRows_self cells w cs n (row + 1)
        (presentRow cells w cs row st) hrow.1
      refine ⟨hrec.1, fun c hc => ?_⟩
      rcases hrec.2 c hc with hc' | hc' | hc' | hc'
      · rcases hrow.2 c hc' with hc'' | hc'' | hc'' | hc''
        · exact Or.inl hc''
        · exact Or.inr (Or.inl hc'')
        · exact Or.inr (Or.inr (Or.inl hc''))
        · exact Or.inr (Or.inr (Or.inr hc''))
      · exact Or.inr (Or.inl hc')
      · exact Or.inr (Or.inr (Or.inl hc'))
      · exact Or.inr (Or.inr (Or.inr hc'))

/-- C1 counterexample: with `clear_on_start` enabled, a second `present()`
with no intervening mutation still emits `EraseEndOfLine` (for every row
whose `empty_col_index` is short of the width). -/
theorem present_twice_erase_cex :
    Command.EraseEndOfLine ∈
      ((((((Screen.new 1 1).setClearOnStart true).clearAll).1).present).1.present).2 := by
  decide

/-- C1 amended: for a screen whose `clear_on_start` flag is off (the
default), after any state (hence after any sequence of canvas mutations)
and one `present()`, a second `present()` emits no `PutChar` and no
`EraseEndOfLine` — every command is a `CursorShow`, `CursorGoto` or
`ResetAttributes`.  With `clear_on_start` on, `EraseEndOfLine` commands
are additionally re-emitted on every call. -/
theorem present_twice_bookkeeping (s : Screen)
    (h1 : s.cells.length = s.width * s.height)
    (h2 : s.painted_cells.length = s.width * s.height)
    (h3 : s.clear_on_start = false) :
    ∀ c ∈ ((s.present).1.present).2,
      (∀ ch, c ≠ Command.PutChar ch) ∧ c ≠ Command.EraseEndOfLine ∧
      ((∃ b, c = Command.CursorShow b) ∨ (∃ a b, c = Command.CursorGoto a b) ∨
        c = Command.ResetAttributes) := by
  intro c hc
  have hpainted : (s.present).1.painted_cells = s.cells :=
    present_painted_eq_cells s h1 h2
  have hcmds : ((s.present).1.present).2 =
      (presentRows (s.present).1.cells (s.present).1.width
        (s.present).1.clear_on_start 0 (s.present).1.height
        { commands := [Command.CursorShow false, Command.CursorGoto 0 0,
            Command.ResetAttributes]
          last_attr := Attr.default
          last_cursor := Cursor.default
          painted := (s.present).1.painted_cells }).commands
      ++ [Command.CursorGoto (s.present).1.cursor.row (s.present).1.cursor.col]
      ++ (if (s.present).1.cursor.visible then [Command.CursorShow true] else []) :=
    rfl
  have hself := presentRows_self (s.present).1.cells (s.present).1.width
    (s.present).1.clear_on_start (s.present).1.height 0
    { commands := [Command.CursorShow false, Command.CursorGoto 0 0,
        Command.ResetAttributes]
      last_attr := Attr.default
      last_cursor := Cursor.default
      painted := (s.present).1.painted_cells }
    (by simpa using hpainted)
  have hshape : (∃ b, c = Command.CursorShow b) ∨
      (∃ a b, c = Command.CursorGoto a b) ∨ c = Command.ResetAttributes := by
    rw [hcmds] at hc
    simp only [List.mem_append] at hc
    rcases hc with (hc | hc) | hc
    · rcases hself.2 c hc with hc' | hc' | hc' | hc'
      · simp only [List.mem_cons, List.mem_singleton] at hc'
        rcases hc' with hc' | hc' | hc' | hc'
        · exact Or.inl ⟨false, hc'⟩
        · exact Or.inr (Or.inl ⟨0, 0, hc'⟩)
        · exact Or.inr (Or.inr hc')
        · cases hc'
      · exact Or.inr (Or.inl hc')
      · exact Or.inr (Or.inr hc')
      · exact absurd (h3 ▸ hc'.2) (by simp)
    · simp only [List.mem_singleton] at hc
      exact Or.inr (Or.inl ⟨_, _, hc⟩)
    · split at hc
      · simp only [List.mem_singleton] at hc
        exact Or.inl ⟨true, hc⟩
      · cases hc
  refine ⟨?_, ?_, hshape⟩
  · intro ch
    rcases hshape with ⟨b, hb⟩ | ⟨a, b, hb⟩ | hb <;> subst hb <;> simp
  · rcases hshape with ⟨b, hb⟩ | ⟨a, b, hb⟩ | hb <;> subst hb <;> simp

/-- Witness for `present_twice_bookkeeping`: on a concrete 2×1 screen the
second `present` cannot contain a `PutChar`. -/
theorem present_twice_bookkeeping_witness :
    Command.PutChar 'x' ∉ (((Screen.new 2 1).present).1.present).2 := by
  intro hmem
  exact ((present_twice_bookkeeping (Screen.new 2 1) (by decide) (by decide) rfl
    (Command.PutChar 'x') hmem).1 'x') rfl

/-! ## Keys (src/key.rs) -/

/-- `MouseButton` from src/key.rs. -/
inductive MouseButton where
  | Left | Right | Middle | WheelUp | WheelDown
deriving DecidableEq

/-- `Key` from src/key.rs (`u8`/`u16` payloads modelled as `Nat`). -/
inductive Key where
  | Null | ESC
  | Ctrl (c : Char)
  | Tab | Enter
  | BackTab | Backspace | AltBackTab
  | Up | Down | Left | Right | Home | End | Insert | Delete | PageUp | PageDown
  | CtrlUp | CtrlDown | CtrlLeft | CtrlRight
  | ShiftUp | ShiftDown | ShiftLeft | ShiftRight
  | AltUp | AltDown | AltLeft | AltRight | AltHome | AltEnd
  | AltPageUp | AltPageDown
  | AltShiftUp | AltShiftDown | AltShiftLeft | AltShiftRight
  | F (n : Nat)
  | CtrlAlt (c : Char)
  | AltEnter | AltBackspace | AltTab
  | Alt (c : Char)
  | Char (c : Char)
  | CursorPos (row col : Nat)
  | MousePress (b : MouseButton) (row col : Nat)
  | MouseRelease (row col : Nat)
  | MouseHold (row col : Nat)
  | SingleClick (b : MouseButton) (row col : Nat)
  | DoubleClick (b : MouseButton) (row col : Nat)
  | WheelUp (row col count : Nat)
  | WheelDown (row col count : Nat)
  | BracketedPasteStart | BracketedPasteEnd

/-- Constructor tag of a `Key` (plumbing for decidable equality;
the Rust type derives `PartialEq`). -/
def keyTagIdx : Key → Nat := fun k => match k with
  | Key.Null => 0
  | Key.ESC => 1
  | Key.Ctrl _ => 2
  | Key.Tab => 3
  | Key.Enter => 4
  | Key.BackTab => 5
  | Key.Backspace => 6
  | Key.AltBackTab => 7
  | Key.Up => 8
  | Key.Down => 9
  | Key.Left => 10
  | Key.Right => 11
  | Key.Home => 12
  | Key.End => 13
  | Key.Insert => 14
  | Key.Delete => 15
  | Key.PageUp => 16
  | Key.PageDown => 17
  | Key.CtrlUp => 18
  | Key.CtrlDown => 19
  | Key.CtrlLeft => 20
  | Key.CtrlRight => 21
  | Key.ShiftUp => 22
  | Key.ShiftDown => 23
  | Key.ShiftLeft => 24
  | Key.ShiftRight => 25
  | Key.AltUp => 26
  | Key.AltDown => 27
  | Key.AltLeft => 28
  | Key.AltRight => 29
  | Key.AltHome => 30
  | Key.AltEnd => 31
  | Key.AltPageUp => 32
  | Key.AltPageDown => 33
  | Key.AltShiftUp => 34
  | Key.AltShiftDown => 35
  | Key.AltShiftLeft => 36
  | Key.AltShiftRight => 37
  | Key.F _ => 38
  | Key.CtrlAlt _ => 39
  | Key.AltEnter => 40
  | Key.AltBackspace => 41
  | Key.AltTab => 42
  | Key.Alt _ => 43
  | Key.Char _ => 44
  | Key.CursorPos _ _ => 45
  | Key.MousePress _ _ _ => 46
  | Key.MouseRelease _ _ => 47
  | Key.MouseHold _ _ => 48
  | Key.SingleClick _ _ _ => 49
  | Key.DoubleClick _ _ _ => 50
  | Key.WheelUp _ _ _ => 51
  | Key.WheelDown _ _ _ => 52
  | Key.BracketedPasteStart => 53
  | Key.BracketedPasteEnd => 54

/-- Character payload of a `Key` (default a space). -/
def keyChPayload : Key → Char := fun k => match k with
  | Key.Ctrl c => c
  | Key.CtrlAlt c => c
  | Key.Alt c => c
  | Key.Char c => c
  | _ => ' '

/-- Mouse-button payload of a `Key` (default `Left`). -/
def keyBtnPayload : Key → MouseButton := fun k => match k with
  | Key.MousePress b _ _ => b
  | Key.SingleClick b _ _ => b
  | Key.DoubleClick b _ _ => b
  | _ => MouseButton.Left

/-- Numeric payload 1 of a `Key` (default 0). -/
def keyNatPayload1 : Key → Nat := fun k => match k with
  | Key.F n => n
  | Key.CursorPos r _ => r
  | Key.MousePress _ r _ => r
  | Key.MouseRelease r _ => r
  | Key.MouseHold r _ => r
  | Key.SingleClick _ r _ => r
  | Key.DoubleClick _ r _ => r
  | Key.WheelUp r _ _ => r
  | Key.WheelDown r _ _ => r
  | _ => 0

/-- Numeric payload 2 of a `Key` (default 0). -/
def keyNatPayload2 : Key → Nat := fun k => match k with
  | Key.CursorPos _ c2 => c2
  | Key.MousePress _ _ c2 => c2
  | Key.MouseRelease _ c2 => c2
  | Key.MouseHold _ c2 => c2
  | Key.SingleClick _ _ c2 => c2
  | Key.DoubleClick _ _ c2 => c2
  | Key.WheelUp _ c2 _ => c2
  | Key.WheelDown _ c2 _ => c2
  | _ => 0

/-- Numeric payload 3 of a `Key` (default 0). -/
def keyNatPayload3 : Key → Nat := fun k => match k with
  | Key.WheelUp _ _ k => k
  | Key.WheelDown _ _ k => k
  | _ => 0

/-- Rebuild a `Key` from its tag and payloads. -/
def keyRecon (tag : Nat) (c : Char) (b : MouseButton) (n1 n2 n3 : Nat) : Key :=
  match tag with
  | 0 => Key.Null
  | 1 => Key.ESC
  | 2 => Key.Ctrl c
  | 3 => Key.Tab
  | 4 => Key.Enter
  | 5 => Key.BackTab
  | 6 => Key.Backspace
  | 7 => Key.AltBackTab
  | 8 => Key.Up
  | 9 => Key.Down
  | 10 => Key.Left
  | 11 => Key.Right
  | 12 => Key.Home
  | 13 => Key.End
  | 14 => Key.Insert
  | 15 => Key.Delete
  | 16 => Key.PageUp
  | 17 => Key.PageDown
  | 18 => Key.CtrlUp
  | 19 => Key.CtrlDown
  | 20 => Key.CtrlLeft
  | 21 => Key.CtrlRight
  | 22 => Key.ShiftUp
  | 23 => Key.ShiftDown
  | 24 => Key.ShiftLeft
  | 25 => Key.ShiftRight
  | 26 => Key.AltUp
  | 27 => Key.AltDown
  | 28 => Key.AltLeft
  | 29 => Key.AltRight
  | 30 => Key.AltHome
  | 31 => Key.AltEnd
  | 32 => Key.AltPageUp
  | 33 => Key.AltPageDown
  | 34 => Key.AltShiftUp
  | 35 => Key.AltShiftDown
  | 36 => Key.AltShiftLeft
  | 37 => Key.AltShiftRight
  | 38 => Key.F n1
  | 39 => Key.CtrlAlt c
  | 40 => Key.AltEnter
  | 41 => Key.AltBackspace
  | 42 => Key.AltTab
  | 43 => Key.Alt c
  | 44 => Key.Char c
  | 45 => Key.CursorPos n1 n2
  | 46 => Key.MousePress b n1 n2
  | 47 => Key.MouseRelease n1 n2
  | 48 => Key.MouseHold n1 n2
  | 49 => Key.SingleClick b n1 n2
  | 50 => Key.DoubleClick b n1 n2
  | 51 => Key.WheelUp n1 n2 n3
  | 52 => Key.WheelDown n1 n2 n3
  | 53 => Key.BracketedPasteStart
  | 54 => Key.BracketedPasteEnd
  | _ => Key.Null
/-- `keyRecon` inverts the tag/payload decomposition. -/
theorem keyRecon_spec (k : Key) :
    keyRecon (keyTagIdx k) (keyChPayload k) (keyBtnPayload k) (keyNatPayload1 k)
      (keyNatPayload2 k) (keyNatPayload3 k) = k := by
  cases k <;> rfl

/-- Structural equality of `Key` (the Rust type derives `PartialEq`). -/
instance : DecidableEq Key := fun a b =>
  decidable_of_iff
    (keyTagIdx a = keyTagIdx b ∧ keyChPayload a = keyChPayload b ∧
      keyBtnPayload a = keyBtnPayload b ∧ keyNatPayload1 a = keyNatPayload1 b ∧
      keyNatPayload2 a = keyNatPayload2 b ∧ keyNatPayload3 a = keyNatPayload3 b)
    ⟨fun h => by
        rw [← keyRecon_spec a, ← keyRecon_spec b, h.1, h.2.1, h.2.2.1,
          h.2.2.2.1, h.2.2.2.2.1, h.2.2.2.2.2],
     fun h => by subst h; exact ⟨rfl, rfl, rfl, rfl, rfl, rfl⟩⟩

/-! ## The `extended_escape` decoder (src/input.rs lines 494-599)

The keyboard's pending byte stream is modelled as a `List Nat`;
`next_byte_timeout` on an exhausted stream yields a `Timeout` error. -/

/-- `next_byte_timeout`: pop the next byte or time out. -/
def nextByteTimeout (buf : List Nat) : TResult (Nat × List Nat) :=
  match buf with
  | [] => Except.error TuikitError.Timeout
  | b :: rest => Except.ok (b, rest)

/-- The `while seq_last != b'M' && seq_last != b'~'` accumulation loop of
`extended_escape`. -/
def readUntilMT : List Nat → List Nat → TResult (List Nat × Nat × List Nat)
  | _, [] => Except.error TuikitError.Timeout
  | acc, b :: rest =>
      if b = 77 ∨ b = 126 then Except.ok (acc, b, rest)
      else readUntilMT (acc ++ [b]) rest

/-- Rust `u16::parse` on a digit string (byte values); `none` models a
parse failure (which the source `unwrap`s into a panic). -/
def parseU16 (bs : List Nat) : Option Nat :=
  if bs ≠ [] ∧ bs.all (fun b => 48 ≤ b ∧ b ≤ 57) then
    let v := bs.foldl (fun acc b => acc * 10 + (b - 48)) 0
    if v ≤ 65535 then some v else none
  else none

/-- Rust `u8::parse` on a digit string (byte values). -/
def parseU8 (bs : List Nat) : Option Nat :=
  if bs ≠ [] ∧ bs.all (fun b => 48 ≤ b ∧ b ≤ 57) then
    let v := bs.foldl (fun acc b => acc * 10 + (b - 48)) 0
    if v ≤ 255 then some v else none
  else none

/-- Rust `{:x?}` formatting of a byte: lowercase hex digits. -/
def hexStr (n : Nat) : String := String.mk (Nat.toDigits 16 n)

/-- The characters of a byte string (for the `format!` error payloads). -/
def bytesStr (bs : List Nat) : String := String.mk (bs.map Char.ofNat)

/-- `KeyBoard::extended_escape(seq2)`: decode the remainder of a
`ESC [ <digit> ...` control sequence from the pending byte stream. -/
def extendedEscape (seq2 : Nat) (buf : List Nat) : TResult (Key × List Nat) :=
  match nextByteTimeout buf with
  | Except.error e => Except.error e
  | Except.ok (seq3, buf1) =>
    if seq3 = 126 then
      match seq2 with
      | 49 => Except.ok (Key.Home, buf1)
      | 55 => Except.ok (Key.Home, buf1)
      | 50 => Except.ok (Key.Insert, buf1)
      | 51 => Except.ok (Key.Delete, buf1)
      | 52 => Except.ok (Key.End, buf1)
      | 56 => Except.ok (Key.End, buf1)
      | 53 => Except.ok (Key.PageUp, buf1)
      | 54 => Except.ok (Key.PageDown, buf1)
      | _ => Except.error (TuikitError.UnknownSequence
          ("ESC [ " ++ toString seq2 ++ " ~"))
    else if 48 ≤ seq3 ∧ seq3 ≤ 57 then
      match readUntilMT [] buf1 with
      | Except.error e => Except.error e
      | Except.ok (mid, seq_last, buf2) =>
        let str_buf := seq2 :: seq3 :: mid
        if seq_last = 77 then
          -- rxvt mouse encoding: ESC [ Cb ; Cx ; Cy ; M
          let fields := str_buf.splitOn 59
          match fields[0]?.bind parseU16, fields[1]?.bind parseU16,
              fields[2]?.bind parseU16 with
          | some cb, some cx0, some cy0 =>
            let cx := cx0 - 1
            let cy := cy0 - 1
            match cb with
            | 32 => Except.ok (Key.MousePress MouseButton.Left cy cx, buf2)
            | 33 => Except.ok (Key.MousePress MouseButton.Middle cy cx, buf2)
            | 34 => Except.ok (Key.MousePress MouseButton.Right cy cx, buf2)
            | 35 => Except.ok (Key.MouseRelease cy cx, buf2)
            | 64 => Except.ok (Key.MouseHold cy cx, buf2)
            | 96 => Except.ok (Key.MousePress MouseButton.WheelUp cy cx, buf2)
            | 97 => Except.ok (Key.MousePress MouseButton.WheelUp cy cx, buf2)
            | _ => Except.error (TuikitError.UnknownSequence
                ("ESC [ " ++ bytesStr str_buf ++ " M"))
          | _, _, _ => Except.error TuikitError.Panic
        else
          match parseU8 str_buf with
          | none => Except.error TuikitError.Panic
          | some num =>
            if 11 ≤ num ∧ num ≤ 15 then Except.ok (Key.F (num - 10), buf2)
            else if 17 ≤ num ∧ num ≤ 21 then Except.ok (Key.F (num - 11), buf2)
            else if 23 ≤ num ∧ num ≤ 24 then Except.ok (Key.F (num - 12), buf2)
            else if num = 200 then Except.ok (Key.BracketedPasteStart, buf2)
            else if num = 201 then Except.ok (Key.BracketedPasteEnd, buf2)
            else Except.error (TuikitError.UnknownSequence
                ("ESC [ " ++ bytesStr str_buf ++ " ~"))
    else if seq3 = 59 then
      match nextByteTimeout buf1 with
      | Except.error e => Except.error e
      | Except.ok (seq4, buf2) =>
        if 48 ≤ seq4 ∧ seq4 ≤ 57 then
          match nextByteTimeout buf2 with
          | Except.error e => Except.error e
          | Except.ok (seq5, buf3) =>
            if seq2 = 49 then
              match seq4, seq5 with
              | 53, 65 => Except.ok (Key.CtrlUp, buf3)
              | 53, 66 => Except.ok (Key.CtrlDown, buf3)
              | 53, 67 => Except.ok (Key.CtrlRight, buf3)
              | 53, 68 => Except.ok (Key.CtrlLeft, buf3)
              | 52, 65 => Except.ok (Key.AltShiftUp, buf3)
              | 52, 66 => Except.ok (Key.AltShiftDown, buf3)
              | 52, 67 => Except.ok (Key.AltShiftRight, buf3)
              | 52, 68 => Except.ok (Key.AltShiftLeft, buf3)
              | 51, 72 => Except.ok (Key.AltHome, buf3)
              | 51, 70 => Except.ok (Key.AltEnd, buf3)
              | 50, 65 => Except.ok (Key.ShiftUp, buf3)
              | 50, 66 => Except.ok (Key.ShiftDown, buf3)
              | 50, 67 => Except.ok (Key.ShiftRight, buf3)
              | 50, 68 => Except.ok (Key.ShiftLeft, buf3)
              | _, _ => Except.error (TuikitError.UnknownSequence
                  ("ESC [ 1 ; " ++ hexStr seq4 ++ " " ++ hexStr seq5))
            else
              Except.error (TuikitError.UnknownSequence
                ("ESC [ " ++ hexStr seq2 ++ " ; " ++ hexStr seq4 ++ " "
                  ++ hexStr seq5))
        else
          Except.error (TuikitError.UnknownSequence
            ("ESC [ " ++ hexStr seq2 ++ " ; " ++ hexStr seq4))
    else
      match seq2, seq3 with
      | 53, 65 => Except.ok (Key.CtrlUp, buf1)
      | 53, 66 => Except.ok (Key.CtrlDown, buf1)
      | 53, 67 => Except.ok (Key.CtrlRight, buf1)
      | 53, 68 => Except.ok (Key.CtrlLeft, buf1)
      | _, _ => Except.error (TuikitError.UnknownSequence
          ("ESC [ " ++ hexStr seq2 ++ " " ++ hexStr seq3))

/-! ## Click synthesis (src/input.rs lines 201-237)

The double-click state of the keyboard: the last mouse press surfaced and
the instant (in milliseconds) it was observed. -/

/-- `DOUBLE_CLICK_DURATION` (milliseconds). -/
def DOUBLE_CLICK_MS : Nat := 300

/-- The `(last_click, last_click_time)` state of `KeyBoard`. -/
structure ClickState where
  last_click : Key
  last_click_time : Nat
deriving DecidableEq

/-- The click-synthesis step of `next_key_timeout` (active when
`raw_mouse` is off), applied to a decoded key at time `now` (ms):
a `MousePress` equal to the last click within 300 ms becomes
`DoubleClick`, otherwise `SingleClick` with `last_click` updated;
`last_click_time` is always refreshed.  Non-press keys pass through. -/
def synthesizeClick (st : ClickState) (key : Key) (now : Nat) : ClickState × Key :=
  match key with
  | Key.MousePress button row col =>
      if key = st.last_click ∧ now - st.last_click_time < DOUBLE_CLICK_MS then
        ({ st with last_click_time := now }, Key.DoubleClick button row col)
      else
        ({ last_click := key, last_click_time := now },
         Key.SingleClick button row col)
  | _ => (st, key)

/-- C6 counterexample: `ESC [ 1 ; 3 A` does not decode to `AltUp` (it is
an `UnknownSequence` error — only `3 H`/`3 F` carry the Alt modifier), and
`ESC [ 1 ; 2 H` likewise fails instead of producing a Shift-Home. -/
theorem extended_escape_alt_up_cex :
    extendedEscape 49 [59, 51, 65] =
      Except.error (TuikitError.UnknownSequence "ESC [ 1 ; 33 41") ∧
    extendedEscape 49 [59, 51, 65] ≠ Except.ok (Key.AltUp, []) ∧
    extendedEscape 49 [59, 50, 72] =
      Except.error (TuikitError.UnknownSequence "ESC [ 1 ; 32 48") := by
  refine ⟨by rfl, by decide, by rfl⟩

/-- C6 amended: the `ESC [ 1 ; m X` decoding table is partial: m=2 (Shift)
and m=4 (AltShift) and m=5 (Ctrl) are recognized only with X∈{A,B,C,D}
(arrows), m=3 (Alt) only with X∈{H,F} (home/end); all ten remaining
combinations yield an `UnknownSequence` error. -/
theorem extended_escape_modifier_table :
    List.map (fun p => extendedEscape 49 [59, p.1, p.2])
      [(50, 65), (50, 66), (50, 67), (50, 68), (50, 72), (50, 70),
       (51, 65), (51, 66), (51, 67), (51, 68), (51, 72), (51, 70),
       (52, 65), (52, 66), (52, 67), (52, 68), (52, 72), (52, 70),
       (53, 65), (53, 66), (53, 67), (53, 68), (53, 72), (53, 70)] =
      [Except.ok (Key.ShiftUp, []), Except.ok (Key.ShiftDown, []),
       Except.ok (Key.ShiftRight, []), Except.ok (Key.ShiftLeft, []),
       Except.error (TuikitError.UnknownSequence "ESC [ 1 ; 32 48"),
       Except.error (TuikitError.UnknownSequence "ESC [ 1 ; 32 46"),
       Except.error (TuikitError.UnknownSequence "ESC [ 1 ; 33 41"),
       Except.error (TuikitError.UnknownSequence "ESC [ 1 ; 33 42"),
       Except.error (TuikitError.UnknownSequence "ESC [ 1 ; 33 43"),
       Except.error (TuikitError.UnknownSequence "ESC [ 1 ; 33 44"),
       Except.ok (Key.AltHome, []), Except.ok (Key.AltEnd, []),
       Except.ok (Key.AltShiftUp, []), Except.ok (Key.AltShiftDown, []),
       Except.ok (Key.AltShiftRight, []), Except.ok (Key.AltShiftLeft, []),
       Except.error (TuikitError.UnknownSequence "ESC [ 1 ; 34 48"),
       Except.error (TuikitError.UnknownSequence "ESC [ 1 ; 34 46"),
       Except.ok (Key.CtrlUp, []), Except.ok (Key.CtrlDown, []),
       Except.ok (Key.CtrlRight, []), Except.ok (Key.CtrlLeft, []),
       Except.error (TuikitError.UnknownSequence "ESC [ 1 ; 35 48"),
       Except.error (TuikitError.UnknownSequence "ESC [ 1 ; 35 46")] := by
  rfl

/-- C7: click synthesis.  A decoded `MousePress` equal to the stored last
click with less than 300 ms elapsed becomes `DoubleClick`, any other press
becomes `SingleClick`; after any press the stored click is the press and
the stored time is the current instant; from a fresh state two identical
presses within 300 ms give `SingleClick` then `DoubleClick`, and two
presses more than 300 ms apart both give `SingleClick`. -/
theorem click_synthesis_spec :
    (∀ (st : ClickState) (b : MouseButton) (r c now : Nat),
      (Key.MousePress b r c = st.last_click ∧
          now - st.last_click_time < 300) →
        synthesizeClick st (Key.MousePress b r c) now =
          ({ st with last_click_time := now }, Key.DoubleClick b r c)) ∧
    (∀ (st : ClickState) (b : MouseButton) (r c now : Nat),
      ¬ (Key.MousePress b r c = st.last_click ∧
          now - st.last_click_time < 300) →
        synthesizeClick st (Key.MousePress b r c) now =
          (⟨Key.MousePress b r c, now⟩, Key.SingleClick b r c)) ∧
    (∀ (st : ClickState) (b : MouseButton) (r c now : Nat),
      (synthesizeClick st (Key.MousePress b r c) now).1.last_click
          = Key.MousePress b r c ∧
      (synthesizeClick st (Key.MousePress b r c) now).1.last_click_time = now) ∧
    (∀ (t0 t1 t2 : Nat) (b : MouseButton) (r c : Nat), t2 - t1 < 300 →
      (synthesizeClick ⟨Key.Null, t0⟩ (Key.MousePress b r c) t1).2
          = Key.SingleClick b r c ∧
      (synthesizeClick
          (synthesizeClick ⟨Key.Null, t0⟩ (Key.MousePress b r c) t1).1
          (Key.MousePress b r c) t2).2 = Key.DoubleClick b r c) ∧
    (∀ (t0 t1 t2 : Nat) (b : MouseButton) (r c : Nat), 300 < t2 - t1 →
      (synthesizeClick ⟨Key.Null, t0⟩ (Key.MousePress b r c) t1).2
          = Key.SingleClick b r c ∧
      (synthesizeClick
          (synthesizeClick ⟨Key.Null, t0⟩ (Key.MousePress b r c) t1).1
          (Key.MousePress b r c) t2).2 = Key.SingleClick b r c) := by
  have hdouble : ∀ (st : ClickState) (b : MouseButton) (r c now : Nat),
      (Key.MousePress b r c = st.last_click ∧
          now - st.last_click_time < 300) →
        synthesizeClick st (Key.MousePress b r c) now =
          ({ st with last_click_time := now }, Key.DoubleClick b r c) := by
    intro st b r c now h
    simp only [synthesizeClick, DOUBLE_CLICK_MS]
    rw [if_pos h]
  have hsingle : ∀ (st : ClickState) (b : MouseButton) (r c now : Nat),
      ¬ (Key.MousePress b r c = st.last_click ∧
          now - st.last_click_time < 300) →
        synthesizeClick st (Key.MousePress b r c) now =
          (⟨Key.MousePress b r c, now⟩, Key.SingleClick b r c) := by
    intro st b r c now h
    simp only [synthesizeClick, DOUBLE_CLICK_MS]
    rw [if_neg h]
  have hfirst : ∀ (t0 t1 : Nat) (b : MouseButton) (r c : Nat),
      synthesizeClick ⟨Key.Null, t0⟩ (Key.MousePress b r c) t1 =
        (⟨Key.MousePress b r c, t1⟩, Key.SingleClick b r c) := by
    intro t0 t1 b r c
    exact hsingle ⟨Key.Null, t0⟩ b r c t1 (by intro h; cases h.1)
  refine ⟨hdouble, hsingle, ?_, ?_, ?_⟩
  · intro st b r c now
    by_cases h : Key.MousePress b r c = st.last_click ∧
        now - st.last_click_time < 300
    · rw [hdouble st b r c now h]
      exact ⟨h.1.symm, rfl⟩
    · rw [hsingle st b r c now h]
      exact ⟨rfl, rfl⟩
  · intro t0 t1 t2 b r c h2
    rw [hfirst t0 t1 b r c]
    refine ⟨rfl, ?_⟩
    rw [hdouble ⟨Key.MousePress b r c, t1⟩ b r c t2 ⟨rfl, h2⟩]
  · intro t0 t1 t2 b r c h2
    rw [hfirst t0 t1 b r c]
    refine ⟨rfl, ?_⟩
    rw [hsingle ⟨Key.MousePress b r c, t1⟩ b r c t2 (by
      intro h
      have hh : t2 - t1 < 300 := h.2
      omega)]

/-- Witness for `click_synthesis_spec`: two left presses at (5,5), 100 ms
apart, give `SingleClick` then `DoubleClick`. -/
theorem click_synthesis_spec_witness :
    (synthesizeClick ⟨Key.Null, 0⟩ (Key.MousePress MouseButton.Left 5 5) 1000).2
        = Key.SingleClick MouseButton.Left 5 5 ∧
    (synthesizeClick
        (synthesizeClick ⟨Key.Null, 0⟩ (Key.MousePress MouseButton.Left 5 5) 1000).1
        (Key.MousePress MouseButton.Left 5 5) 1100).2
      = Key.DoubleClick MouseButton.Left 5 5 :=
  click_synthesis_spec.2.2.2.1 0 1000 1100 MouseButton.Left 5 5 (by norm_num)

/-! ## Flexbox splits (src/widget/mod.rs, src/widget/split.rs) -/

/-- `Size` from src/widget/mod.rs. -/
inductive Size where
  | Fixed (n : Nat) : Size
  | Percent (n : Nat) : Size
  | Default : Size
deriving DecidableEq

/-- `Size::calc_fixed_size(total_size, default_size)`. -/
def Size.calc_fixed_size : Size → Nat → Nat → Nat
  | Size.Fixed fixed, total_size, _ => min total_size fixed
  | Size.Percent percent, total_size, _ => min total_size (total_size * percent / 100)
  | Size.Default, _, default_size => default_size

/-- A `Split` trait object: its basis, grow and shrink factors and its
`size_hint` (from which `inner_size` is derived). -/
structure SplitItem where
  basis : Size
  grow : Nat
  shrink : Nat
  hintWidth : Option Nat
  hintHeight : Option Nat
deriving DecidableEq

/-- `Split::inner_size`: the size hint mapped to `Size::Fixed`, defaulting
to `Size::Default`. -/
def SplitItem.inner_size (it : SplitItem) : Size × Size :=
  ((it.hintWidth.map Size.Fixed).getD Size.Default,
   (it.hintHeight.map Size.Fixed).getD Size.Default)

/-- `SplitType` from src/widget/split.rs. -/
inductive SplitType where
  | Horizontal | Vertical
deriving DecidableEq

/-- `Op` from src/widget/split.rs. -/
inductive Op where
  | Noop | Grow | Shrink
deriving DecidableEq

/-- The `split_sizes` computation of
`SplitContainer::retrieve_split_info`: resolve each child's basis (using
the inner size along the split axis when the basis is `Default`) and then
`calc_fixed_size` against the actual size. -/
def splitSizes (splits : List SplitItem) (ty : SplitType) (actual_size : Nat) :
    List Nat :=
  (splits.map (fun split =>
    let ws := split.inner_size
    let dflt := match ty with
      | SplitType.Horizontal => ws.1
      | SplitType.Vertical => ws.2
    match split.basis with
    | Size.Default => dflt
    | b => b)).map
    (fun size => size.calc_fixed_size actual_size actual_size)

/-- The `split_factors` computation of `retrieve_split_info`. -/
def splitFactors (splits : List SplitItem) (op : Op) : List Nat :=
  splits.map (fun split => match op with
    | Op.Noop => 0
    | Op.Shrink => split.shrink
    | Op.Grow => split.grow)

/-- `SplitContainer::retrieve_split_info(actual_size)`. -/
def retrieve_split_info (splits : List SplitItem) (ty : SplitType)
    (actual_size : Nat) : List Nat :=
  let split_sizes := splitSizes splits ty actual_size
  let target_total_size := split_sizes.sum
  let op := if target_total_size = actual_size then Op.Noop
    else if target_total_size < actual_size then Op.Grow
    else Op.Shrink
  let size_diff := match op with
    | Op.Noop => 0
    | Op.Grow => actual_size - target_total_size
    | Op.Shrink => target_total_size - actual_size
  let split_factors := splitFactors splits op
  let total_factors := split_factors.sum
  let unit := if total_factors = 0 then 0 else size_diff / total_factors
  List.zipWith (fun sz f => match op with
    | Op.Noop => sz
    | Op.Grow => sz + f * unit
    | Op.Shrink => sz - min sz (f * unit)) split_sizes split_factors

/-- The clipping loop of `HSplit::draw`: each child is bounded by
`right = min(left + target_width, width)` and receives `right - left`
columns. -/
def drawWidthsGo (width : Nat) : Nat → List Nat → List Nat
  | _, [] => []
  | left, t :: ts =>
      let right := min (left + t) width
      (right - left) :: drawWidthsGo width right ts

/-- The widths of the `BoundedCanvas`es that `HSplit::draw` hands to its
children on a canvas of the given width. -/
def hsplitDrawWidths (splits : List SplitItem) (width : Nat) : List Nat :=
  drawWidthsGo width 0 (retrieve_split_info splits SplitType.Horizontal width)

theorem zipWith_add_mul_sum (u : Nat) :
    ∀ (ts gs : List Nat), ts.length = gs.length →
      (List.zipWith (fun t g => t + g * u) ts gs).sum = ts.sum + gs.sum * u
  | [], [], _ => by simp
  | [], _ :: _, h => by cases h
  | _ :: _, [], h => by cases h
  | t :: ts, g :: gs, h => by
      simp only [List.zipWith_cons_cons, List.sum_cons,
        zipWith_add_mul_sum u ts gs (by simpa using h)]
      ring

theorem drawWidthsGo_id (W : Nat) :
    ∀ (ts : List Nat) (left : Nat), left + ts.sum ≤ W →
      drawWidthsGo W left ts = ts
  | [], _, _ => rfl
  | t :: ts, left, h => by
      rw [drawWidthsGo]
      simp only [List.sum_cons] at h
      have hmin : min (left + t) W = left + t := by omega
      simp only [hmin, Nat.add_sub_cancel_left]
      rw [drawWidthsGo_id W ts (left + t) (by omega)]

/-- C8: when the resolved basis sizes sum to less than the available width
`S` and the total grow factor `G` is positive, `HSplit` renders each child
with exactly `target_i + grow_i · ((S − sum)/G)` columns (integer
division, remainder dropped); concretely, on an 80-wide canvas two
children of basis 10 with grow factors 1 and 2 render 30 and 50 wide. -/
theorem hsplit_grow_widths (splits : List SplitItem) (S : Nat)
    (hsum : (splitSizes splits SplitType.Horizontal S).sum < S)
    (hG : 0 < (splits.map SplitItem.grow).sum) :
    hsplitDrawWidths splits S =
      List.zipWith
        (fun t g => t + g *
          ((S - (splitSizes splits SplitType.Horizontal S).sum) /
            (splits.map SplitItem.grow).sum))
        (splitSizes splits SplitType.Horizontal S)
        (splits.map SplitItem.grow) ∧
    hsplitDrawWidths
      [⟨Size.Fixed 10, 1, 1, none, none⟩, ⟨Size.Fixed 10, 2, 1, none, none⟩] 80
      = [30, 50] := by
  have hfac : splitFactors splits Op.Grow = splits.map SplitItem.grow := rfl
  have hretr : retrieve_split_info splits SplitType.Horizontal S =
      List.zipWith
        (fun t g => t + g *
          ((S - (splitSizes splits SplitType.Horizontal S).sum) /
            (splits.map SplitItem.grow).sum))
        (splitSizes splits SplitType.Horizontal S)
        (splits.map SplitItem.grow) := by
    simp only [retrieve_split_info]
    rw [if_neg (by omega), if_pos hsum]
    simp only [hfac]
    rw [if_neg (by omega)]
  have hlen : (splitSizes splits SplitType.Horizontal S).length =
      (splits.map SplitItem.grow).length := by
    simp [splitSizes, List.length_map]
  have htot : (List.zipWith
      (fun t g => t + g *
        ((S - (splitSizes splits SplitType.Horizontal S).sum) /
          (splits.map SplitItem.grow).sum))
      (splitSizes splits SplitType.Horizontal S)
      (splits.map SplitItem.grow)).sum ≤ S := by
    rw [zipWith_add_mul_sum _ _ _ hlen]
    have hdiv := Nat.div_mul_le_self
      (S - (splitSizes splits SplitType.Horizontal S).sum)
      (splits.map SplitItem.grow).sum
    have hcomm : (splits.map SplitItem.grow).sum *
        ((S - (splitSizes splits SplitType.Horizontal S).sum) /
          (splits.map SplitItem.grow).sum) =
        ((S - (splitSizes splits SplitType.Horizontal S).sum) /
          (splits.map SplitItem.grow).sum) * (splits.map SplitItem.grow).sum :=
      Nat.mul_comm _ _
    omega
  refine ⟨?_, by decide⟩
  unfold hsplitDrawWidths
  rw [hretr]
  exact drawWidthsGo_id S _ 0 (by omega)

/-- Witness for `hsplit_grow_widths` at the concrete two-child layout. -/
theorem hsplit_grow_widths_witness :
    hsplitDrawWidths
      [⟨Size.Fixed 10, 1, 1, none, none⟩, ⟨Size.Fixed 10, 2, 1, none, none⟩] 80
      = [30, 50] :=
  (hsplit_grow_widths
    [⟨Size.Fixed 10, 1, 1, none, none⟩, ⟨Size.Fixed 10, 2, 1, none, none⟩] 80
    (by decide) (by decide)).2

end Tuikit
